import Mathlib

/-!
Verification development for the routing service in src/src/main.rs
(repository fapra_submission). The service loads a road network, a contracted
graph and a hub-label artifact, snaps request coordinates to graph vertices,
and answers shortest-path queries over HTTP.

The visible source is the single file src/src/main.rs; the crates
`faster_paths` and `osm_converter` it calls into are external collaborators.
Definitions below translate src/src/main.rs directly; components that live
only in the external crates are modelled from the specification and say so in
their doc comments.
-/

set_option maxHeartbeats 1000000

namespace Fapra

/-- Geographic point (longitude, latitude). The source stores `f64` degrees
(`osm_converter` `Point`); coordinates are modelled as exact integers, since
no claim depends on floating-point rounding. -/
structure Point where
  lon : Int
  lat : Int
deriving DecidableEq, Repr

/-- `Point::from_coordinate(lat, lon)`: the source passes latitude first
(src/src/main.rs lines 96 and 100). -/
def Point.from_coordinate (lat lon : Int) : Point :=
  { lon := lon, lat := lat }

/-- Squared planar distance, the model of the geographic distance used by the
nearest-neighbour structure. -/
def distSq (p q : Point) : Int :=
  (p.lon - q.lon) * (p.lon - q.lon) + (p.lat - q.lat) * (p.lat - q.lat)

/-- Modelled from the spec: `PointSpatialPartition::get_nearest` lives in the
external `osm_converter` crate, not under src/. Spec section 4.3:
"Deterministic nearest-neighbor by geographic distance; ties broken by stable
input order (first-inserted wins)". The grid is modelled by the list of points
it was built from (src/src/main.rs lines 63-64 add all coordinates in input
order), scanned in insertion order keeping a strictly nearer candidate only. -/
def get_nearest_aux (q : Point) : Option Point → List Point → Option Point
  | best, [] => best
  | none, p :: ps => get_nearest_aux q (some p) ps
  | some b, p :: ps =>
    if distSq p q < distSq b q then get_nearest_aux q (some p) ps
    else get_nearest_aux q (some b) ps

/-- See `get_nearest_aux`. -/
def get_nearest (points : List Point) (q : Point) : Option Point :=
  get_nearest_aux q none points

/-- src/src/main.rs lines 66-69: `point_id_map` is a `HashMap` filled by
inserting `(point, id)` for every enumerated coordinate; `HashMap::insert`
overwrites an existing key, so of several coincident points the id inserted
last survives. Modelled as a lookup function in which entries inserted later
shadow earlier ones; `i` is the id of the head of the remaining list. -/
def buildPointIdMapFrom (i : Nat) : List Point → Point → Option Nat
  | [], _ => none
  | p :: ps, q =>
    match buildPointIdMapFrom (i + 1) ps q with
    | some v => some v
    | none => if q = p then some i else none

/-- See `buildPointIdMapFrom`. -/
def buildPointIdMap (points : List Point) : Point → Option Nat :=
  buildPointIdMapFrom 0 points

/-- The snapping pipeline of the route handler (src/src/main.rs lines 96-102):
nearest grid point, then its vertex id from `point_id_map`. -/
def nearest_vertex (points : List Point) (q : Point) : Option Nat :=
  match get_nearest points q with
  | none => none
  | some p => buildPointIdMap points p

/-- A weighted directed graph; edges are (tail, head, weight). Models the
graph snapshots of the external `faster_paths` crate. -/
structure Graph where
  num_vertices : Nat
  edges : List (Nat × Nat × Nat)
deriving DecidableEq, Repr

/-- `faster_paths` `Path`: vertex sequence plus total weight. -/
structure Path where
  vertices : List Nat
  weight : Nat
deriving DecidableEq, Repr

/-- `faster_paths` `ShortestPathRequest`: an ordered vertex-id pair. -/
structure ShortestPathRequest where
  source : Nat
  target : Nat
deriving DecidableEq, Repr

/-- Modelled from the spec: `ShortestPathRequest::new` lives in the external
`faster_paths` crate; src/src/main.rs line 104 only calls it. Spec section 3:
"source = target is NOT required; a degenerate request (source == target) must
yield a zero-weight, single-vertex path, not an error", so construction
succeeds for every pair. -/
def ShortestPathRequest.new (source target : Nat) : Option ShortestPathRequest :=
  some { source := source, target := target }

/-- Tentative-distance table of the search: vertex to (distance, predecessor). -/
abbrev DistTable := Nat → Option (Nat × Option Nat)

/-- Initial table: the source at distance zero with no predecessor. -/
def initTable (s : Nat) : DistTable :=
  fun u => if u = s then some (0, none) else none

/-- Point update of a distance table. -/
def updateD (d : DistTable) (v : Nat) (x : Nat × Option Nat) : DistTable :=
  fun u => if u = v then some x else d u

/-- Relax one edge: improve the head's tentative distance through the tail. -/
def relaxEdge (d : DistTable) (e : Nat × Nat × Nat) : DistTable :=
  match d e.1 with
  | none => d
  | some (du, _) =>
    match d e.2.1 with
    | none => updateD d e.2.1 (du + e.2.2, some e.1)
    | some (dv, _) =>
      if du + e.2.2 < dv then updateD d e.2.1 (du + e.2.2, some e.1) else d

/-- Relax every edge once. -/
def relaxAll (edges : List (Nat × Nat × Nat)) (d : DistTable) : DistTable :=
  edges.foldl relaxEdge d

/-- Iterate full relaxation rounds. -/
def relaxIter (edges : List (Nat × Nat × Nat)) : Nat → DistTable → DistTable
  | 0, d => d
  | n + 1, d => relaxIter edges n (relaxAll edges d)

/-- Reconstruct the vertex sequence by walking predecessors back from `v`;
fuel bounds the walk. -/
def buildPathFrom (d : DistTable) : Nat → Nat → Option (List Nat)
  | 0, _ => none
  | fuel + 1, v =>
    match d v with
    | none => none
    | some (_, none) => some [v]
    | some (_, some u) => (buildPathFrom d fuel u).map (fun l => l ++ [v])

/-- Modelled from the spec: the shortest-path search of the external
`faster_paths` backends (spec section 4.1): a connected pair yields a
minimum-weight path, a disconnected pair yields no path. Executable
Bellman-Ford relaxation with predecessor reconstruction. -/
def shortest_path_search (g : Graph) (r : ShortestPathRequest) : Option Path :=
  let d := relaxIter g.edges g.num_vertices (initTable r.source)
  match d r.target with
  | none => none
  | some (dist, _) =>
    (buildPathFrom d (g.num_vertices + 1) r.target).map
      (fun vs => { vertices := vs, weight := dist })

/-- A contracted-graph shortcut edge, keyed by (tail, head). -/
abbrev DirectedEdge := Nat × Nat

/-- The shortcut artifact: each shortcut edge maps to the middle vertex whose
two incident edges it replaced. -/
abbrev Shortcuts := List (DirectedEdge × Nat)

/-- First-match lookup of a shortcut's middle vertex. -/
def lookupShortcut : Shortcuts → DirectedEdge → Option Nat
  | [], _ => none
  | s :: rest, e => if s.1 = e then some s.2 else lookupShortcut rest e

/-- Modelled from the spec: `SlowShortcutReplacer` lives in the external
`faster_paths` crate; src/src/main.rs line 77 only constructs it. Spec
section 4.2: recursive-reconstruction strategy; a shortcut edge (u, v) with
middle vertex m expands recursively into the expansions of (u, m) and (m, v),
terminating at original edges. In a well-formed artifact every shortcut refers
only to strictly earlier shortcuts, so fuel `sc.length` always suffices. -/
def slow_replace (sc : Shortcuts) : Nat → DirectedEdge → List DirectedEdge
  | 0, e => [e]
  | fuel + 1, e =>
    match lookupShortcut sc e with
    | none => [e]
    | some m => slow_replace sc fuel (e.1, m) ++ slow_replace sc fuel (m, e.2)

/-- The slow replacer's expansion of one edge. -/
def SlowShortcutReplacer.replace (sc : Shortcuts) (e : DirectedEdge) : List DirectedEdge :=
  slow_replace sc sc.length e

/-- Precomputed expansion table of the fast replacer. -/
abbrev ExpansionTable := List (DirectedEdge × List DirectedEdge)

/-- First-match lookup in the precomputed expansion table. -/
def lookupExpansion : ExpansionTable → DirectedEdge → Option (List DirectedEdge)
  | [], _ => none
  | s :: rest, e => if s.1 = e then some s.2 else lookupExpansion rest e

/-- One construction step of the fast replacer's table: resolve a shortcut's
two constituent edges against the table built so far and append the result. -/
def fastTableStep (t : ExpansionTable) (p : DirectedEdge × Nat) : ExpansionTable :=
  t ++ [(p.1,
    ((lookupExpansion t (p.1.1, p.2)).getD [(p.1.1, p.2)]) ++
    ((lookupExpansion t (p.2, p.1.2)).getD [(p.2, p.1.2)]))]

/-- Modelled from the spec: `FastShortcutReplacer::new` lives in the external
`faster_paths` crate; src/src/main.rs line 82 only constructs it. Spec
section 4.2: direct-lookup/precomputed-table strategy; the table is filled in
artifact order, each entry resolving its constituents against earlier rows. -/
def FastShortcutReplacer.new (sc : Shortcuts) : ExpansionTable :=
  sc.foldl fastTableStep []

/-- The fast replacer's expansion of one edge: a single table lookup. -/
def FastShortcutReplacer.replace (t : ExpansionTable) (e : DirectedEdge) : List DirectedEdge :=
  (lookupExpansion t e).getD [e]

/-- Index of the first shortcut entry keyed by `e`. -/
def keyIdx : Shortcuts → DirectedEdge → Option Nat
  | [], _ => none
  | s :: rest, e => if s.1 = e then some 0 else (keyIdx rest e).map (· + 1)

/-- Well-formedness of the shortcut artifact: keys are distinct and every
shortcut's two constituent edges are themselves resolved only by strictly
earlier shortcuts (spec section 4.2: expansion terminates at original edges;
a constituent that cannot be located is a fatal artifact-integrity error). -/
def scWF : Shortcuts → Bool
  | [] => true
  | p :: rest =>
    (lookupShortcut (p :: rest) (p.1.1, p.2)).isNone &&
    ((lookupShortcut (p :: rest) (p.2, p.1.2)).isNone &&
    (rest.all (fun s => decide (s.1 ≠ p.1)) &&
    scWF rest))

/-- Replace every consecutive pair of a found vertex sequence by its shortcut
expansion (spec section 4.1, contraction-hierarchy variant: every shortcut on
the returned path is expanded before the path is returned). -/
def expandVertices (rep : DirectedEdge → List DirectedEdge) : List Nat → List Nat
  | [] => []
  | [v] => [v]
  | u :: v :: rest => ((rep (u, v)).map (fun e => e.1)) ++ expandVertices rep (v :: rest)

/-- Modelled from the spec: `ChPathFinder::get_shortest_path` lives in the
external `faster_paths` crate; src/src/main.rs line 78 constructs the finder.
Search on the contracted graph, then shortcut-expand the result. -/
def ChPathFinder.get_shortest_path (g : Graph) (rep : DirectedEdge → List DirectedEdge)
    (r : ShortestPathRequest) : Option Path :=
  (shortest_path_search g r).map
    (fun p => { vertices := expandVertices rep p.vertices, weight := p.weight })

/-- The road network and coordinates loaded by `Fmi::from_gr_co_file`
(src/src/main.rs lines 58-61; the loader is external to src/): vertex
coordinates in input order plus the original weighted edges. -/
structure Fmi where
  points : List Point
  edges : List (Nat × Nat × Nat)
deriving DecidableEq, Repr

/-- Modelled from the spec: `Fmi::convert_path` lives in the external
`osm_converter` crate; it maps each vertex id of a computed path back to its
coordinate (src/src/main.rs line 110). -/
def Fmi.convert_path (g : Fmi) (ids : List Nat) : List Point :=
  ids.map (fun i => (g.points.get? i).getD { lon := 0, lat := 0 })

/-- `osm_converter` `Linestring`: an ordered coordinate sequence. -/
abbrev Linestring := List Point

/-- `osm_converter` `Planet`: the GeoJSON document the handler builds; only
its linestrings matter here — serialisation to a string is external. -/
structure Planet where
  linestrings : List Linestring
deriving DecidableEq, Repr

/-- src/src/main.rs lines 43-47: the JSON request body; both fields are
(lon, lat) pairs. -/
structure RouteRequest where
  from' : Int × Int
  to' : Int × Int
deriving DecidableEq, Repr

/-- src/src/main.rs lines 53-56: the warp CORS builder configuration. -/
structure CorsPolicy where
  allow_any_origin : Bool
  allow_headers : List String
  allow_methods : List String
deriving DecidableEq, Repr

/-- src/src/main.rs lines 53-56. -/
def cors : CorsPolicy :=
  { allow_any_origin := true
    allow_headers := ["Content-Type"]
    allow_methods := ["GET", "POST", "OPTIONS"] }

/-- src/src/main.rs lines 91-125: the shape of the warp filter bound to the
route endpoint — method, path, JSON body extraction, and the CORS policy it
is wrapped with via `.with(cors)`. -/
structure RouteFilter where
  method : String
  path : String
  parses_json_body : Bool
  cors_policy : CorsPolicy
deriving DecidableEq, Repr

/-- src/src/main.rs lines 91-125: the `promote` filter. -/
def promote : RouteFilter :=
  { method := "POST", path := "route", parses_json_body := true, cors_policy := cors }

/-- The shared state captured by the request-handler closure
(src/src/main.rs lines 58-87): all four pieces are built once at startup and
shared read-only (behind `Arc`) by every concurrent handler invocation. -/
structure ServerState where
  coordinates_graph : Fmi
  point_grid : List Point
  point_id_map : Point → Option Nat
  path_finder : ShortestPathRequest → Option Path

/-- Outcome of one handler invocation. `crash` models a Rust `unwrap` failure:
the closure unwinds instead of producing a response (the string names the
call that failed). `response` models `Response::builder().body(geojson)`. -/
inductive HandlerOutcome
  | crash (msg : String)
  | response (planet : Planet)
deriving DecidableEq, Repr

/-- src/src/main.rs lines 95-123: the route handler closure, translated
match-for-unwrap. Every `.unwrap()` of the source becomes a `crash` arm; the
timing printout (lines 105, 107, 115-121) is I/O without data flow into the
response and is omitted. -/
def handleRoute (st : ServerState) (route_request : RouteRequest) : HandlerOutcome :=
  match get_nearest st.point_grid
      (Point.from_coordinate route_request.from'.2 route_request.from'.1) with
  | none => .crash "get_nearest"
  | some nearest_from_proint =>
    match st.point_id_map nearest_from_proint with
    | none => .crash "point_id_map"
    | some fromId =>
      match get_nearest st.point_grid
          (Point.from_coordinate route_request.to'.2 route_request.to'.1) with
      | none => .crash "get_nearest"
      | some nearest_to_proint =>
        match st.point_id_map nearest_to_proint with
        | none => .crash "point_id_map"
        | some toId =>
          match ShortestPathRequest.new fromId toId with
          | none => .crash "ShortestPathRequest::new"
          | some request =>
            match st.path_finder request with
            | none => .crash "get_shortest_path"
            | some pathx =>
              let ids := pathx.vertices
              let path := st.coordinates_graph.convert_path ids
              let linestring : Linestring := path
              .response { linestrings := [linestring] }

/-- The snapping prefix of the handler (src/src/main.rs lines 96-102), as a
projection: the two snapped vertex ids when every lookup succeeds. -/
def snapEndpoints (st : ServerState) (route_request : RouteRequest) : Option (Nat × Nat) :=
  match get_nearest st.point_grid
      (Point.from_coordinate route_request.from'.2 route_request.from'.1) with
  | none => none
  | some nearest_from_proint =>
    match st.point_id_map nearest_from_proint with
    | none => none
    | some fromId =>
      match get_nearest st.point_grid
          (Point.from_coordinate route_request.to'.2 route_request.to'.1) with
      | none => none
      | some nearest_to_proint =>
        match st.point_id_map nearest_to_proint with
        | none => none
        | some toId => some (fromId, toId)

/-- State-passing form of the handler: the closure only reads the shared
`Arc` state (src/src/main.rs lines 95-123 contain no write to it), so the
state after a request is the state before it. -/
def handleRouteSt (st : ServerState) (r : RouteRequest) : HandlerOutcome × ServerState :=
  (handleRoute st r, st)

/-- `faster_paths` `ContractedGraphInformation`: the contracted graph plus its
shortcut table, deserialised in src/src/main.rs line 75. -/
structure ContractedGraphInformation where
  ch_graph : Graph
  shortcuts : Shortcuts
deriving DecidableEq, Repr

/-- The hub-label artifact (`faster_paths` `HubGraph`), deserialised in
src/src/main.rs line 84; modelled by its vertex count, all any claim needs. -/
structure HubGraph where
  num_vertices : Nat
deriving DecidableEq, Repr

/-- `faster_paths` `HubGraphPathFinder`: constructed in src/src/main.rs
line 85 and bound to the unused `_hl_path_finder`. -/
structure HubGraphPathFinder where
  hub_graph : HubGraph
  shortcut_replacer : DirectedEdge → List DirectedEdge

/-- `HubGraphPathFinder::new` (src/src/main.rs line 85). -/
def HubGraphPathFinder.new (hl : HubGraph) (rep : DirectedEdge → List DirectedEdge) :
    HubGraphPathFinder :=
  { hub_graph := hl, shortcut_replacer := rep }

/-- Observable startup milestones: the `ready` line printed at
src/src/main.rs line 89 and the listener started at line 127. -/
inductive StartupEvent
  | ready
  | listen
deriving DecidableEq, Repr

/-- Outcome of process startup. `abort` models a Rust `unwrap` failure while
loading an artifact: the process exits and serves nothing. `serving` carries
the startup milestones in order and the shared state every handler uses. -/
inductive MainOutcome
  | abort (msg : String)
  | serving (events : List StartupEvent) (st : ServerState)

/-- The shared state assembled in src/src/main.rs lines 58-87: coordinates
graph, point grid over its points, point-to-id map, and the serving path
finder, which is the contraction-hierarchy finder over the ch artifact with
the slow shortcut replacer (lines 76-78 and 87). -/
def mkServerState (coordinates_graph : Fmi) (ch_information : ContractedGraphInformation) :
    ServerState :=
  { coordinates_graph := coordinates_graph
    point_grid := coordinates_graph.points
    point_id_map := buildPointIdMap coordinates_graph.points
    path_finder := fun r =>
      ChPathFinder.get_shortest_path ch_information.ch_graph
        (fun e => SlowShortcutReplacer.replace ch_information.shortcuts e) r }

/-- src/src/main.rs lines 50-127: process startup over the three deserialised
artifact groups (graph+coordinates, contracted graph, hub labels), each given
as `none` when its load or deserialisation fails, mirroring the `.unwrap()`
calls at lines 58, 74-75 and 83-84. The hub-label finder is built (line 85)
but only the ch finder is installed (line 87). `ready` (line 89) precedes the
listener (line 127). -/
def main (fmi? : Option Fmi) (ch? : Option ContractedGraphInformation)
    (hl? : Option HubGraph) : MainOutcome :=
  match fmi? with
  | none => .abort "Fmi::from_gr_co_file"
  | some coordinates_graph =>
    match ch? with
    | none => .abort "bincode::deserialize_from ch"
    | some ch_information =>
      match hl? with
      | none => .abort "bincode::deserialize_from hl"
      | some hl =>
        let fast_shortcut_replacer := fun e =>
          FastShortcutReplacer.replace (FastShortcutReplacer.new ch_information.shortcuts) e
        let _hl_path_finder := HubGraphPathFinder.new hl fast_shortcut_replacer
        .serving [StartupEvent.ready, StartupEvent.listen]
          (mkServerState coordinates_graph ch_information)

/-- Modelled from the spec: structural consistency between the startup
artifacts (spec section 6: "structurally inconsistent with the others (e.g.,
vertex-count mismatch)") — both precomputed artifacts must agree with the
coordinate set on the vertex count. -/
def structurallyConsistent (fmi : Fmi) (ch : ContractedGraphInformation) (hl : HubGraph) : Prop :=
  ch.ch_graph.num_vertices = fmi.points.length ∧ hl.num_vertices = fmi.points.length

/-- Weight of the original edge (u, v), if it exists. -/
def edgeWeight : List (Nat × Nat × Nat) → Nat → Nat → Option Nat
  | [], _, _ => none
  | e :: rest, u, v => if e.1 = u ∧ e.2.1 = v then some e.2.2 else edgeWeight rest u v

/-- Recompute a path's total weight over the original graph; `none` when a
consecutive pair is not an edge (structural-continuity failure). -/
def recomputeWeight (g : Fmi) : List Nat → Option Nat
  | [] => none
  | [_] => some 0
  | u :: v :: rest =>
    match edgeWeight g.edges u v, recomputeWeight g (v :: rest) with
    | some w, some rw => some (w + rw)
    | _, _ => none

/-- Modelled from the spec: `PathValidator` (spec section 4.4) — no such
component exists in the source. Recomputes the total weight over the original
graph and checks structural continuity; exact equality, weights being
integral. -/
def validate (g : Fmi) (p : Path) : Bool :=
  match recomputeWeight g p.vertices with
  | none => false
  | some w => w == p.weight

end Fapra

namespace Fapra

def fmi2 : Fmi :=
  { points := [{ lon := 0, lat := 0 }, { lon := 10, lat := 0 }], edges := [] }

def ch2 : ContractedGraphInformation :=
  { ch_graph := { num_vertices := 2, edges := [] }, shortcuts := [] }

def hl2 : HubGraph := { num_vertices := 2 }

def st2 : ServerState := mkServerState fmi2 ch2

def fmiC : Fmi :=
  { points := [{ lon := 0, lat := 0 }, { lon := 10, lat := 0 }], edges := [(0, 1, 5)] }

def chC : ContractedGraphInformation :=
  { ch_graph := { num_vertices := 2, edges := [(0, 1, 5)] }, shortcuts := [] }

def stC : ServerState := mkServerState fmiC chC

/-- Artifacts whose vertex counts disagree (2 coordinates, 5 ch vertices). -/
def ch5 : ContractedGraphInformation :=
  { ch_graph := { num_vertices := 5, edges := [] }, shortcuts := [] }

/-- Empty coordinate set: the grid holds no point, so `get_nearest` fails. -/
def fmi0 : Fmi := { points := [], edges := [] }

/-- State served after loading the empty coordinate set. -/
def st0 : ServerState := mkServerState fmi0 ch2

/-- A state whose installed backend returns a structurally invalid path of
weight 999; `Box<dyn PathFinding>` is an open interface, so the handler code
is exactly as generic as this. -/
def stBogus : ServerState :=
  { coordinates_graph := fmi2
    point_grid := fmi2.points
    point_id_map := buildPointIdMap fmi2.points
    path_finder := fun _ => some { vertices := [0, 1], weight := 999 } }

/-- C1: the claim says a request between disjoint components surfaces
`NoPathFound` as a structured non-200 result and the handler never panics.
On the code the backend's `None` is `.unwrap()`ed (src/src/main.rs line 106):
on a two-vertex edgeless graph, a request snapping to vertices 0 and 1 makes
the handler crash instead of answering. (Termination is never in question:
the search is bounded by the graph size.) -/
theorem C1_no_path_found_panics :
    main (some fmi2) (some ch2) (some hl2) =
      MainOutcome.serving [StartupEvent.ready, StartupEvent.listen] st2 ∧
    handleRoute st2 { from' := (0, 0), to' := (10, 0) } =
      HandlerOutcome.crash "get_shortest_path" :=
  ⟨rfl, by decide⟩

/-- C3: the claim says every per-request pipeline failure is returned as an
explicit error response and nothing unwinds past the per-request boundary.
On the code a snapping failure is `.unwrap()`ed (src/src/main.rs line 97):
with an empty coordinate set the handler crashes at `get_nearest` and no
error response is produced. -/
theorem C3_pipeline_failure_panics :
    main (some fmi0) (some ch2) (some hl2) =
      MainOutcome.serving [StartupEvent.ready, StartupEvent.listen] st0 ∧
    handleRoute st0 { from' := (0, 0), to' := (0, 0) } =
      HandlerOutcome.crash "get_nearest" :=
  ⟨rfl, by decide⟩

/-- C4 counterexample: the claim says the orchestrator validates every
backend result before encoding and surfaces a validation failure as a
server-side fault. On the code there is no validator: a backend result whose
weight (999) and edges fail (spec-modelled) validation is still encoded and
returned as an ordinary success response. -/
theorem C4_counterexample_invalid_path_encoded :
    validate fmi2 { vertices := [0, 1], weight := 999 } = false ∧
    handleRoute stBogus { from' := (0, 0), to' := (10, 0) } =
      HandlerOutcome.response
        { linestrings := [[{ lon := 0, lat := 0 }, { lon := 10, lat := 0 }]] } :=
  ⟨by decide, by decide⟩

/-- C4 amended: the orchestrator runs no validation at all — whenever both
endpoints snap and the backend returns a path, the handler encodes that path
directly as a success response, whatever its weight or structure. -/
theorem C4_no_validation_direct_encode (st : ServerState) (r : RouteRequest)
    (f t : Nat) (pathx : Path)
    (h1 : snapEndpoints st r = some (f, t))
    (h2 : st.path_finder { source := f, target := t } = some pathx) :
    handleRoute st r =
      HandlerOutcome.response
        { linestrings := [st.coordinates_graph.convert_path pathx.vertices] } := by
  unfold snapEndpoints at h1
  unfold handleRoute
  cases hg1 : get_nearest st.point_grid
      (Point.from_coordinate r.from'.2 r.from'.1) with
  | none => rw [hg1] at h1; simp at h1
  | some nf =>
    rw [hg1] at h1
    dsimp only at h1 ⊢
    cases hm1 : st.point_id_map nf with
    | none => rw [hm1] at h1; simp at h1
    | some fid =>
      rw [hm1] at h1
      dsimp only at h1 ⊢
      cases hg2 : get_nearest st.point_grid
          (Point.from_coordinate r.to'.2 r.to'.1) with
      | none => rw [hg2] at h1; simp at h1
      | some nt =>
        rw [hg2] at h1
        dsimp only at h1 ⊢
        cases hm2 : st.point_id_map nt with
        | none => rw [hm2] at h1; simp at h1
        | some tid =>
          rw [hm2] at h1
          dsimp only at h1 ⊢
          simp only [Option.some.injEq, Prod.mk.injEq] at h1
          obtain ⟨hfe, hte⟩ := h1
          subst hfe; subst hte
          simp only [ShortestPathRequest.new, h2]

/-- Witness for `C4_no_validation_direct_encode` at a concrete connected
two-vertex state. -/
theorem C4_no_validation_direct_encode_witness :
    snapEndpoints stC { from' := (0, 0), to' := (10, 0) } = some (0, 1) ∧
    stC.path_finder { source := 0, target := 1 } =
      some { vertices := [0, 1], weight := 5 } ∧
    handleRoute stC { from' := (0, 0), to' := (10, 0) } =
      HandlerOutcome.response
        { linestrings := [stC.coordinates_graph.convert_path [0, 1]] } :=
  ⟨by decide, by decide,
    C4_no_validation_direct_encode stC { from' := (0, 0), to' := (10, 0) } 0 1
      { vertices := [0, 1], weight := 5 } (by decide) (by decide)⟩

/-- C7 counterexample: the claim says structurally inconsistent artifacts
must make the process fail to start. On the code no cross-artifact check
exists: artifacts that deserialise but whose vertex counts disagree
(2 coordinates vs 5 ch vertices) start and serve normally. -/
theorem C7_counterexample_inconsistent_artifacts_serve :
    main (some fmi2) (some ch5) (some hl2) =
      MainOutcome.serving [StartupEvent.ready, StartupEvent.listen] (mkServerState fmi2 ch5) ∧
    ¬ structurallyConsistent fmi2 ch5 hl2 :=
  ⟨rfl, fun h => absurd h.1 (by decide)⟩

/-- C7 amended: if any artifact fails to deserialise the process aborts
before serving anything; no structural cross-consistency is checked; on
success the `ready` signal is emitted after all loads and before the
listener starts. -/
theorem C7_startup_failfast_ready_order :
    (∀ c h, main none c h = MainOutcome.abort "Fmi::from_gr_co_file") ∧
    (∀ f h, main (some f) none h = MainOutcome.abort "bincode::deserialize_from ch") ∧
    (∀ f c, main (some f) (some c) none = MainOutcome.abort "bincode::deserialize_from hl") ∧
    (∀ f c h, main (some f) (some c) (some h) =
      MainOutcome.serving [StartupEvent.ready, StartupEvent.listen] (mkServerState f c)) :=
  ⟨fun _ _ => rfl, fun _ _ => rfl, fun _ _ => rfl, fun _ _ _ => rfl⟩

/-- C8: the CORS policy permits all origins, exactly the methods GET, POST
and OPTIONS, and the header Content-Type, and it is the policy applied to
the /route endpoint (src/src/main.rs lines 53-56 and 124). -/
theorem C8_cors_policy :
    cors.allow_any_origin = true ∧
    (∀ m, m ∈ cors.allow_methods ↔ (m = "GET" ∨ m = "POST" ∨ m = "OPTIONS")) ∧
    cors.allow_headers = ["Content-Type"] ∧
    promote.cors_policy = cors ∧
    promote.method = "POST" ∧ promote.path = "route" := by
  refine ⟨rfl, ?_, rfl, rfl, rfl, rfl⟩
  intro m
  simp [cors]

/-- C9: startup builds a hub-label finder but never installs it — the served
outcome is independent of the hub-label artifact's content, and the installed
backend is exactly the contraction-hierarchy finder over the ch artifact with
the slow shortcut replacer (src/src/main.rs lines 81-87). -/
theorem C9_backend_fixed_to_ch :
    (∀ f c h h', main (some f) (some c) (some h) = main (some f) (some c) (some h')) ∧
    (∀ f c r, (mkServerState f c).path_finder r =
      ChPathFinder.get_shortest_path c.ch_graph
        (fun e => SlowShortcutReplacer.replace c.shortcuts e) r) :=
  ⟨fun _ _ _ _ => rfl, fun _ _ _ => rfl⟩

lemma distSq_nonneg (p q : Point) : 0 ≤ distSq p q :=
  add_nonneg (mul_self_nonneg _) (mul_self_nonneg _)

lemma distSq_self (q : Point) : distSq q q = 0 := by
  simp [distSq]

lemma distSq_eq_zero (p q : Point) (h : distSq p q = 0) : p = q := by
  unfold distSq at h
  have h1 : (p.lon - q.lon) * (p.lon - q.lon) = 0 := by
    nlinarith [mul_self_nonneg (p.lon - q.lon), mul_self_nonneg (p.lat - q.lat)]
  have h2 : (p.lat - q.lat) * (p.lat - q.lat) = 0 := by
    nlinarith [mul_self_nonneg (p.lon - q.lon), mul_self_nonneg (p.lat - q.lat)]
  have hl : p.lon = q.lon := by
    have := mul_self_eq_zero.mp h1; omega
  have ha : p.lat = q.lat := by
    have := mul_self_eq_zero.mp h2; omega
  cases p; cases q
  simp_all

/-- Once the running best candidate is the query point itself (distance 0),
the scan never replaces it. -/
lemma get_nearest_aux_self (q : Point) (l : List Point) :
    get_nearest_aux q (some q) l = some q := by
  induction l with
  | nil => rfl
  | cons p ps ih =>
    unfold get_nearest_aux
    rw [distSq_self]
    rw [if_neg (not_lt.mpr (distSq_nonneg p q))]
    exact ih

/-- A point present in the scanned list is returned when it is itself the
query: nothing is strictly nearer than distance 0, and every distance-0
candidate is the point itself. -/
lemma get_nearest_aux_mem (q : Point) :
    ∀ (l : List Point), q ∈ l → ∀ best : Option Point,
      get_nearest_aux q best l = some q := by
  intro l
  induction l with
  | nil => intro hq; cases hq
  | cons p ps ih =>
    intro hq best
    rcases List.mem_cons.mp hq with hqp | hqs
    · subst hqp
      cases best with
      | none =>
        unfold get_nearest_aux
        exact get_nearest_aux_self q ps
      | some b =>
        unfold get_nearest_aux
        by_cases h0 : distSq b q = 0
        · have hb : b = q := distSq_eq_zero b q h0
          rw [hb, distSq_self, if_neg (lt_irrefl 0)]
          exact get_nearest_aux_self q ps
        · have hpos : 0 < distSq b q :=
            lt_of_le_of_ne (distSq_nonneg b q) (Ne.symm h0)
          rw [distSq_self, if_pos hpos]
          exact get_nearest_aux_self q ps
    · cases best with
      | none =>
        unfold get_nearest_aux
        exact ih hqs (some p)
      | some b =>
        unfold get_nearest_aux
        split
        · exact ih hqs (some p)
        · exact ih hqs (some b)

/-- A point in the loaded set snaps (grid half) to itself. -/
lemma get_nearest_mem (q : Point) (l : List Point) (hq : q ∈ l) :
    get_nearest l q = some q :=
  get_nearest_aux_mem q l hq none

/-- A point absent from the list has no map entry. -/
lemma buildPointIdMapFrom_not_mem (q : Point) :
    ∀ (l : List Point), q ∉ l → ∀ i, buildPointIdMapFrom i l q = none := by
  intro l
  induction l with
  | nil => intro _ _; rfl
  | cons p ps ih =>
    intro h i
    unfold buildPointIdMapFrom
    rw [ih (fun hc => h (List.mem_cons_of_mem p hc)) (i + 1)]
    have hne : q ≠ p := fun hc => h (by rw [hc]; exact List.mem_cons_self p ps)
    simp [hne]

/-- The map entry of a point is the id of its last occurrence: entries
inserted later shadow earlier ones. -/
lemma buildPointIdMapFrom_last (q : Point) (ps2 : List Point) (h : q ∉ ps2) :
    ∀ (ps1 : List Point) (i : Nat),
      buildPointIdMapFrom i (ps1 ++ q :: ps2) q = some (i + ps1.length) := by
  intro ps1
  induction ps1 with
  | nil =>
    intro i
    rw [List.nil_append]
    simp only [buildPointIdMapFrom]
    rw [buildPointIdMapFrom_not_mem q ps2 h (i + 1)]
    simp
  | cons p ps ih =>
    intro i
    rw [List.cons_append]
    simp only [buildPointIdMapFrom]
    rw [ih (i + 1)]
    simp
    omega

/-- C6 counterexample: the claim says ties among equally near coordinates
(including coincident points) are broken by stable input order,
first-inserted wins. On the code, two coincident points at input positions
0 and 1 snap to vertex 1, not 0: `HashMap::insert` (src/src/main.rs line 68)
overwrites the duplicate key, so the last-inserted id survives. -/
theorem C6_counterexample_coincident_first_loses :
    nearest_vertex [{ lon := 0, lat := 0 }, { lon := 0, lat := 0 }] { lon := 0, lat := 0 } =
      some 1 ∧
    nearest_vertex [{ lon := 0, lat := 0 }, { lon := 0, lat := 0 }] { lon := 0, lat := 0 } ≠
      some 0 :=
  ⟨by decide, by decide⟩

/-- C6 amended: snapping is deterministic on an unchanged index (it is a pure
function of the loaded points and the query), but for several coincident
loaded points the returned vertex id is the LAST-inserted one: querying at a
point whose final occurrence is preceded by `ps1` yields id `ps1.length`. -/
theorem C6_snap_deterministic_last_inserted
    (points : List Point) (q1 q2 : Point) (ps1 ps2 : List Point) (p : Point)
    (hq : q1 = q2) (hp : p ∉ ps2) :
    nearest_vertex points q1 = nearest_vertex points q2 ∧
    nearest_vertex (ps1 ++ p :: ps2) p = some ps1.length := by
  constructor
  · rw [hq]
  · unfold nearest_vertex
    have hmem : p ∈ ps1 ++ p :: ps2 :=
      List.mem_append.mpr (Or.inr (List.mem_cons_self p ps2))
    rw [get_nearest_mem p _ hmem]
    dsimp only
    unfold buildPointIdMap
    rw [buildPointIdMapFrom_last p ps2 hp ps1 0]
    simp

/-- Witness for `C6_snap_deterministic_last_inserted`: two coincident points,
the second (id 1) wins. -/
theorem C6_snap_deterministic_last_inserted_witness :
    ({ lon := 0, lat := 0 } : Point) ∉ ([] : List Point) ∧
    nearest_vertex [{ lon := 0, lat := 0 }, { lon := 0, lat := 0 }] { lon := 0, lat := 0 } =
      some 1 := by
  refine ⟨by decide, ?_⟩
  have h := C6_snap_deterministic_last_inserted
    [{ lon := 0, lat := 0 }, { lon := 0, lat := 0 }] { lon := 0, lat := 0 } { lon := 0, lat := 0 }
    [{ lon := 0, lat := 0 }] [] { lon := 0, lat := 0 } rfl (by decide)
  simpa using h.2

/-- Relaxation never lowers the source entry: the source sits at distance 0
with no predecessor, and weights are non-negative. -/
lemma relaxEdge_preserve (s : Nat) (d : DistTable) (e : Nat × Nat × Nat)
    (h : d s = some (0, none)) : relaxEdge d e s = some (0, none) := by
  unfold relaxEdge
  cases h1 : d e.1 with
  | none => exact h
  | some du =>
    obtain ⟨duv, dup⟩ := du
    cases h2 : d e.2.1 with
    | none =>
      unfold updateD
      by_cases hs : s = e.2.1
      · rw [← hs, h] at h2; cases h2
      · simp [hs, h]
    | some dv =>
      obtain ⟨dvv, dvp⟩ := dv
      dsimp only
      by_cases hlt : duv + e.2.2 < dvv
      · rw [if_pos hlt]
        by_cases hs : s = e.2.1
        · exfalso
          rw [← hs, h] at h2
          simp only [Option.some.injEq, Prod.mk.injEq] at h2
          obtain ⟨h2a, _⟩ := h2
          omega
        · simp [updateD, hs, h]
      · rw [if_neg hlt]
        exact h

/-- One full round of relaxation keeps the source at distance 0. -/
lemma relaxAll_preserve (s : Nat) (edges : List (Nat × Nat × Nat)) :
    ∀ d : DistTable, d s = some (0, none) → relaxAll edges d s = some (0, none) := by
  induction edges with
  | nil => intro d h; exact h
  | cons e es ih =>
    intro d h
    rw [relaxAll, List.foldl_cons]
    exact ih (relaxEdge d e) (relaxEdge_preserve s d e h)

/-- Any number of relaxation rounds keeps the source at distance 0. -/
lemma relaxIter_preserve (s : Nat) (edges : List (Nat × Nat × Nat)) :
    ∀ (n : Nat) (d : DistTable), d s = some (0, none) →
      relaxIter edges n d s = some (0, none) := by
  intro n
  induction n with
  | zero => intro d h; exact h
  | succ m ih =>
    intro d h
    rw [relaxIter]
    exact ih (relaxAll edges d) (relaxAll_preserve s edges d h)

/-- The search's distance table leaves the source at distance 0 with no
predecessor. -/
lemma searchTable_source (g : Graph) (s : Nat) :
    relaxIter g.edges g.num_vertices (initTable s) s = some (0, none) :=
  relaxIter_preserve s g.edges g.num_vertices (initTable s) (by simp [initTable])

/-- C2: a degenerate request (source equals target) is neither rejected at
request construction (`ShortestPathRequest::new` succeeds, spec-modelled from
section 3) nor at path computation: for every valid vertex v the
contraction-hierarchy finder returns the single-vertex path [v] of weight 0,
whatever the shortcut table. -/
theorem C2_degenerate_request_zero_weight (g : Graph) (sc : Shortcuts) (v : Nat)
    (_hv : v < g.num_vertices) :
    ShortestPathRequest.new v v = some { source := v, target := v } ∧
    ChPathFinder.get_shortest_path g (fun e => SlowShortcutReplacer.replace sc e)
      { source := v, target := v } = some { vertices := [v], weight := 0 } := by
  refine ⟨rfl, ?_⟩
  have hd := searchTable_source g v
  unfold ChPathFinder.get_shortest_path shortest_path_search
  dsimp only
  rw [hd]
  dsimp only
  rw [buildPathFrom]
  rw [hd]
  dsimp only [Option.map_some', expandVertices]

/-- Witness for `C2_degenerate_request_zero_weight` at vertex 0 of the
two-vertex graph. -/
theorem C2_degenerate_request_zero_weight_witness :
    (0 : Nat) < ch2.ch_graph.num_vertices ∧
    ChPathFinder.get_shortest_path ch2.ch_graph (fun e => SlowShortcutReplacer.replace [] e)
      { source := 0, target := 0 } = some { vertices := [0], weight := 0 } :=
  ⟨by decide, (C2_degenerate_request_zero_weight ch2.ch_graph [] 0 (by decide)).2⟩

lemma lookupShortcut_none_iff (sc : Shortcuts) (e : DirectedEdge) :
    lookupShortcut sc e = none ↔ keyIdx sc e = none := by
  induction sc with
  | nil => simp [lookupShortcut, keyIdx]
  | cons s rest ih =>
    by_cases hs : s.1 = e
    · simp [lookupShortcut, keyIdx, hs]
    · simp [lookupShortcut, keyIdx, hs, ih, Option.map_eq_none']

lemma keyIdx_some (sc : Shortcuts) (e : DirectedEdge) :
    ∀ i, keyIdx sc e = some i →
      ∃ m, sc[i]? = some (e, m) ∧ lookupShortcut sc e = some m := by
  induction sc with
  | nil => intro i h; simp [keyIdx] at h
  | cons s rest ih =>
    intro i h
    by_cases hs : s.1 = e
    · rw [keyIdx, if_pos hs] at h
      injection h with h
      subst h
      refine ⟨s.2, ?_, ?_⟩
      · have hse : s = (e, s.2) := by rw [← hs]
        rw [List.getElem?_cons_zero, ← hse]
      · rw [lookupShortcut, if_pos hs]
    · rw [keyIdx, if_neg hs] at h
      cases hr : keyIdx rest e with
      | none => rw [hr] at h; cases h
      | some j =>
        rw [hr] at h
        simp only [Option.map_some', Option.some.injEq] at h
        obtain ⟨m, hg, hl⟩ := ih j hr
        refine ⟨m, ?_, ?_⟩
        · rw [← h, List.getElem?_cons_succ]; exact hg
        · rw [lookupShortcut, if_neg hs]; exact hl

/-- Projections of one well-formedness step. -/
lemma scWF_cons (s : DirectedEdge × Nat) (rest : Shortcuts) (h : scWF (s :: rest) = true) :
    lookupShortcut (s :: rest) (s.1.1, s.2) = none ∧
    lookupShortcut (s :: rest) (s.2, s.1.2) = none ∧
    (∀ t ∈ rest, t.1 ≠ s.1) ∧ scWF rest = true := by
  rw [scWF] at h
  simp only [Bool.and_eq_true, List.all_eq_true, decide_eq_true_eq,
    Option.isNone_iff_eq_none] at h
  exact ⟨h.1, h.2.1, h.2.2.1, h.2.2.2⟩

/-- With distinct keys, the entry at position k is keyed there. -/
lemma keyIdx_of_getElem (sc : Shortcuts) (hwf : scWF sc = true) :
    ∀ k p, sc[k]? = some p → keyIdx sc p.1 = some k := by
  induction sc with
  | nil => intro k p h; simp at h
  | cons s rest ih =>
    intro k p h
    obtain ⟨_, _, hdist, hrest⟩ := scWF_cons s rest hwf
    cases k with
    | zero =>
      rw [List.getElem?_cons_zero] at h
      injection h with h
      subst h
      rw [keyIdx, if_pos rfl]
    | succ n =>
      rw [List.getElem?_cons_succ] at h
      have hne : p.1 ≠ s.1 := hdist p (List.getElem?_mem h)
      rw [keyIdx, if_neg (fun hc => hne hc.symm), ih hrest n p h]
      rfl

/-- In a well-formed artifact, the constituents of the shortcut at position k
are keyed (if at all) strictly earlier. -/
lemma scWF_constituents (sc : Shortcuts) (hwf : scWF sc = true) :
    ∀ k p, sc[k]? = some p →
      (∀ j, keyIdx sc (p.1.1, p.2) = some j → j < k) ∧
      (∀ j, keyIdx sc (p.2, p.1.2) = some j → j < k) := by
  induction sc with
  | nil => intro k p h; simp at h
  | cons s rest ih =>
    intro k p h
    obtain ⟨hc1, hc2, _, hrest⟩ := scWF_cons s rest hwf
    cases k with
    | zero =>
      rw [List.getElem?_cons_zero] at h
      injection h with h
      subst h
      rw [lookupShortcut_none_iff] at hc1 hc2
      constructor
      · intro j hj; rw [hc1] at hj; cases hj
      · intro j hj; rw [hc2] at hj; cases hj
    | succ n =>
      rw [List.getElem?_cons_succ] at h
      have hih := ih hrest n p h
      constructor
      · intro j hj
        by_cases hs : s.1 = (p.1.1, p.2)
        · rw [keyIdx, if_pos hs] at hj
          injection hj with hj
          omega
        · rw [keyIdx, if_neg hs] at hj
          cases hr : keyIdx rest (p.1.1, p.2) with
          | none => rw [hr] at hj; cases hj
          | some j' =>
            rw [hr] at hj
            simp only [Option.map_some', Option.some.injEq] at hj
            have := hih.1 j' hr
            omega
      · intro j hj
        by_cases hs : s.1 = (p.2, p.1.2)
        · rw [keyIdx, if_pos hs] at hj
          injection hj with hj
          omega
        · rw [keyIdx, if_neg hs] at hj
          cases hr : keyIdx rest (p.2, p.1.2) with
          | none => rw [hr] at hj; cases hj
          | some j' =>
            rw [hr] at hj
            simp only [Option.map_some', Option.some.injEq] at hj
            have := hih.2 j' hr
            omega

/-- An edge that is no shortcut key expands to itself under any fuel. -/
lemma slow_replace_nonkey (sc : Shortcuts) (e : DirectedEdge)
    (h : keyIdx sc e = none) : ∀ f, slow_replace sc f e = [e] := by
  intro f
  cases f with
  | zero => rfl
  | succ n =>
    rw [slow_replace, (lookupShortcut_none_iff sc e).mpr h]

/-- In a well-formed artifact the recursive expansion of the key at position
i is the same under every fuel exceeding i. -/
lemma slow_replace_fuel_stable (sc : Shortcuts) (hwf : scWF sc = true) :
    ∀ i, ∀ e, keyIdx sc e = some i → ∀ f₁ f₂, i < f₁ → i < f₂ →
      slow_replace sc f₁ e = slow_replace sc f₂ e := by
  intro i
  induction i using Nat.strong_induction_on with
  | _ i ih =>
    intro e hk f₁ f₂ hf₁ hf₂
    obtain ⟨m, hget, hlook⟩ := keyIdx_some sc e i hk
    obtain ⟨hcon1, hcon2⟩ := scWF_constituents sc hwf i (e, m) hget
    cases f₁ with
    | zero => omega
    | succ a =>
      cases f₂ with
      | zero => omega
      | succ b =>
        rw [slow_replace, slow_replace, hlook]
        dsimp only
        have h1 : slow_replace sc a (e.1, m) = slow_replace sc b (e.1, m) := by
          cases hkc : keyIdx sc (e.1, m) with
          | none =>
            rw [slow_replace_nonkey sc _ hkc a, slow_replace_nonkey sc _ hkc b]
          | some j =>
            have hj : j < i := hcon1 j hkc
            exact ih j hj _ hkc a b (by omega) (by omega)
        have h2 : slow_replace sc a (m, e.2) = slow_replace sc b (m, e.2) := by
          cases hkc : keyIdx sc (m, e.2) with
          | none =>
            rw [slow_replace_nonkey sc _ hkc a, slow_replace_nonkey sc _ hkc b]
          | some j =>
            have hj : j < i := hcon2 j hkc
            exact ih j hj _ hkc a b (by omega) (by omega)
        rw [h1, h2]

lemma lookupExpansion_append_none (t1 t2 : ExpansionTable) (e : DirectedEdge)
    (h : lookupExpansion t1 e = none) :
    lookupExpansion (t1 ++ t2) e = lookupExpansion t2 e := by
  induction t1 with
  | nil => rw [List.nil_append]
  | cons s rest ih =>
    by_cases hs : s.1 = e
    · rw [lookupExpansion, if_pos hs] at h; cases h
    · rw [lookupExpansion, if_neg hs] at h
      rw [List.cons_append, lookupExpansion, if_neg hs]
      exact ih h

lemma lookupExpansion_append_some (t1 t2 : ExpansionTable) (e : DirectedEdge)
    (v : List DirectedEdge) (h : lookupExpansion t1 e = some v) :
    lookupExpansion (t1 ++ t2) e = some v := by
  induction t1 with
  | nil => simp [lookupExpansion] at h
  | cons s rest ih =>
    by_cases hs : s.1 = e
    · rw [lookupExpansion, if_pos hs] at h
      rw [List.cons_append, lookupExpansion, if_pos hs]
      exact h
    · rw [lookupExpansion, if_neg hs] at h
      rw [List.cons_append, lookupExpansion, if_neg hs]
      exact ih h

lemma foldl_take_succ (sc : Shortcuts) (k : Nat) (p : DirectedEdge × Nat)
    (h : sc[k]? = some p) :
    List.foldl fastTableStep [] (sc.take (k + 1)) =
      fastTableStep (List.foldl fastTableStep [] (sc.take k)) p := by
  rw [List.take_succ, h, List.foldl_append]
  rfl

/-- Invariant of the fast table's construction: after the first k shortcuts
are processed, the table holds exactly the keys of positions below k, each
mapped to its full recursive expansion. -/
lemma fast_table_inv (sc : Shortcuts) (hwf : scWF sc = true) :
    ∀ k, k ≤ sc.length → ∀ e,
      lookupExpansion (List.foldl fastTableStep [] (sc.take k)) e =
        (keyIdx sc e).bind
          (fun j => if j < k then some (slow_replace sc sc.length e) else none) := by
  intro k
  induction k with
  | zero =>
    intro _ e
    rw [List.take_zero]
    cases hke : keyIdx sc e with
    | none => rfl
    | some j => simp [lookupExpansion]
  | succ n ihk =>
    intro hn e
    have hn' : n ≤ sc.length := by omega
    have hlt : n < sc.length := by omega
    obtain ⟨p, hp⟩ : ∃ p, sc[n]? = some p := by
      cases hg : sc[n]? with
      | none => rw [List.getElem?_eq_getElem hlt] at hg; cases hg
      | some p => exact ⟨p, rfl⟩
    rw [foldl_take_succ sc n p hp, fastTableStep]
    have hpkey : keyIdx sc p.1 = some n := keyIdx_of_getElem sc hwf n p hp
    cases hke : keyIdx sc e with
    | none =>
      have hT : lookupExpansion (List.foldl fastTableStep [] (sc.take n)) e = none := by
        rw [ihk hn' e, hke]; rfl
      rw [lookupExpansion_append_none _ _ _ hT]
      have hne : p.1 ≠ e := fun hc => by rw [hc, hke] at hpkey; cases hpkey
      rw [lookupExpansion, if_neg hne]
      rfl
    | some j =>
      rcases Nat.lt_trichotomy j n with hjn | hjn | hjn
      · have hT : lookupExpansion (List.foldl fastTableStep [] (sc.take n)) e =
            some (slow_replace sc sc.length e) := by
          rw [ihk hn' e, hke, Option.some_bind', if_pos hjn]
        rw [lookupExpansion_append_some _ _ _ _ hT, Option.some_bind',
          if_pos (by omega : j < n + 1)]
      · subst hjn
        have hT : lookupExpansion (List.foldl fastTableStep [] (sc.take j)) e = none := by
          rw [ihk hn' e, hke, Option.some_bind', if_neg (lt_irrefl j)]
        rw [lookupExpansion_append_none _ _ _ hT]
        obtain ⟨m, hget, hlook⟩ := keyIdx_some sc e j hke
        have hpe : p = (e, m) := Option.some.inj (hp.symm.trans hget)
        subst hpe
        obtain ⟨hcon1, hcon2⟩ := scWF_constituents sc hwf j (e, m) hget
        obtain ⟨l', hl'⟩ : ∃ l', sc.length = l' + 1 := ⟨sc.length - 1, by omega⟩
        rw [lookupExpansion, if_pos rfl]
        dsimp only
        have hLeq : (lookupExpansion (List.foldl fastTableStep [] (sc.take j)) (e.1, m)).getD
            [(e.1, m)] = slow_replace sc l' (e.1, m) := by
          cases hkc : keyIdx sc (e.1, m) with
          | none =>
            have hnone : lookupExpansion (List.foldl fastTableStep [] (sc.take j)) (e.1, m) =
                none := by
              rw [ihk hn' (e.1, m), hkc]; rfl
            rw [hnone, Option.getD_none, slow_replace_nonkey sc _ hkc l']
          | some jc =>
            have hjc : jc < j := hcon1 jc hkc
            have hsome : lookupExpansion (List.foldl fastTableStep [] (sc.take j)) (e.1, m) =
                some (slow_replace sc sc.length (e.1, m)) := by
              rw [ihk hn' (e.1, m), hkc, Option.some_bind', if_pos hjc]
            rw [hsome, Option.getD_some]
            exact slow_replace_fuel_stable sc hwf jc _ hkc sc.length l'
              (by omega) (by omega)
        have hReq : (lookupExpansion (List.foldl fastTableStep [] (sc.take j)) (m, e.2)).getD
            [(m, e.2)] = slow_replace sc l' (m, e.2) := by
          cases hkc : keyIdx sc (m, e.2) with
          | none =>
            have hnone : lookupExpansion (List.foldl fastTableStep [] (sc.take j)) (m, e.2) =
                none := by
              rw [ihk hn' (m, e.2), hkc]; rfl
            rw [hnone, Option.getD_none, slow_replace_nonkey sc _ hkc l']
          | some jc =>
            have hjc : jc < j := hcon2 jc hkc
            have hsome : lookupExpansion (List.foldl fastTableStep [] (sc.take j)) (m, e.2) =
                some (slow_replace sc sc.length (m, e.2)) := by
              rw [ihk hn' (m, e.2), hkc, Option.some_bind', if_pos hjc]
            rw [hsome, Option.getD_some]
            exact slow_replace_fuel_stable sc hwf jc _ hkc sc.length l'
              (by omega) (by omega)
        rw [hLeq, hReq, Option.some_bind', if_pos (by omega : j < j + 1),
          hl', slow_replace, hlook]
      · have hT : lookupExpansion (List.foldl fastTableStep [] (sc.take n)) e = none := by
          rw [ihk hn' e, hke, Option.some_bind', if_neg (by omega : ¬ j < n)]
        rw [lookupExpansion_append_none _ _ _ hT]
        have hne : p.1 ≠ e := by
          intro hc
          rw [hc, hke] at hpkey
          injection hpkey with hpkey
          omega
        rw [lookupExpansion, if_neg hne, Option.some_bind',
          if_neg (by omega : ¬ j < n + 1)]
        rfl

/-- C5: for every edge — in particular every shortcut of a well-formed loaded
artifact — the fast (precomputed-table) replacer and the slow
(recursive-reconstruction) replacer produce the same expanded ordered edge
sequence. Well-formedness (`scWF`) models the artifact-integrity premise of
spec section 4.2: every constituent is resolved by strictly earlier
shortcuts, so expansion terminates at original edges. -/
theorem C5_replacers_agree (sc : Shortcuts) (hwf : scWF sc = true) (e : DirectedEdge) :
    FastShortcutReplacer.replace (FastShortcutReplacer.new sc) e =
      SlowShortcutReplacer.replace sc e := by
  have hinv := fast_table_inv sc hwf sc.length (le_refl _) e
  rw [List.take_length] at hinv
  rw [FastShortcutReplacer.replace, FastShortcutReplacer.new, SlowShortcutReplacer.replace, hinv]
  cases hk : keyIdx sc e with
  | none =>
    rw [Option.none_bind', Option.getD_none]
    exact (slow_replace_nonkey sc e hk sc.length).symm
  | some j =>
    have hjl : j < sc.length := by
      obtain ⟨m, hg, _⟩ := keyIdx_some sc e j hk
      by_contra hc
      push_neg at hc
      rw [List.getElem?_eq_none hc] at hg
      cases hg
    rw [Option.some_bind', if_pos hjl, Option.getD_some]

/-- Witness for `C5_replacers_agree`: a two-shortcut artifact in which the
second shortcut is built from the first. -/
theorem C5_replacers_agree_witness :
    scWF [((0, 2), 1), ((0, 3), 2)] = true ∧
    FastShortcutReplacer.replace (FastShortcutReplacer.new [((0, 2), 1), ((0, 3), 2)]) (0, 3) =
      SlowShortcutReplacer.replace [((0, 2), 1), ((0, 3), 2)] (0, 3) :=
  ⟨by decide, C5_replacers_agree [((0, 2), 1), ((0, 3), 2)] (by decide) (0, 3)⟩

/-- C10: the handler closure only reads the shared startup state — in
state-passing form the state after any request equals the state before it,
and a later request observes exactly the same state. (The translation of
src/src/main.rs lines 95-123 contains no write to the `Arc`-shared
structures, which is what this records.) -/
theorem C10_no_shared_state_mutation :
    ∀ (st : ServerState) (r1 r2 : RouteRequest),
      (handleRouteSt st r1).2 = st ∧
      handleRoute (handleRouteSt st r1).2 r2 = handleRoute st r2 :=
  fun _ _ _ => ⟨rfl, rfl⟩

end Fapra
